import Mathlib

/-!
Verification development for the `cli-manager-mcp` terminal/orchestration
server (`src/index.ts`).  The definitions below are a shallow embedding of
the program's core data and control flow:

* the per-session output ring buffer maintained by the `onData` callback of
  `createTerminal` (lines 188-193);
* the process-wide session registry (`terminals` map) as driven by
  `createTerminal`, `close_terminal` and the `onExit` callback
  (lines 195-199, 683-692);
* the `stop_project` handler (lines 862-886);
* the completion-wait machinery of `executeCommand` (pattern policy,
  lines 237-252; stability policy, lines 255-284) and `waitForOutput`
  (lines 289-311), modelled as event-driven state machines where one
  `tick` event is one 100 ms `setInterval` callback and `procExit` is the
  pty `onExit` event;
* the recursive `startService` dependency orchestration inside the
  `start_project` handler (lines 800-860), with process side effects
  (session creation, pty writes) recorded in an event log;
* the `setup_project` handler (lines 752-798).

Time is measured in milliseconds; `Date.now() - commandStartTime` is the
`elapsed` field, advanced by 100 per tick.  JavaScript strings are Lean
`String`s, `undefined`-able values are `Option`s, and a thrown exception is
an `Except.error`.
-/

namespace CliMcp

/-- Concatenation of the chunks accumulated by `terminal.output.slice(beforeLength).join("")`. -/
def joinChunks (l : List String) : String := l.foldl (fun a b => a ++ b) ""

/-! ### C8 — the output ring buffer

`createTerminal` registers (index.ts lines 188-193):

```
process_pty.onData((data) => {
  session.output.push(data);
  if (session.output.length > 1000) {
    session.output.shift();
  }
});
```
-/

/-- One `onData` callback invocation: push the chunk, then shift the oldest
entry off the front if the buffer now holds more than 1000 entries. -/
def pushChunk (output : List String) (data : String) : List String :=
  let pushed := output ++ [data]
  if 1000 < pushed.length then pushed.tail else pushed

/-- Buffer contents after a session processes a whole sequence of `onData`
events, starting from the empty buffer a fresh session owns. -/
def runOutputEvents (events : List String) : List String :=
  events.foldl pushChunk []

/-! ### C7 — session registry lifecycle

The registry is the module-level `terminals : Map<string, TerminalSession>`.
The events that mutate the key set are:

* `createTerminal` (line 199): `terminals.set(id, session)` — the id is a
  fresh `uuidv4()`;
* the pty `onExit` callback installed at creation (lines 195-197):
  `terminals.delete(id)` — unsolicited process exit;
* the `close_terminal` tool (lines 683-692): throws `Terminal not found`
  when the id is not registered (registry untouched), otherwise kills the
  process and runs `terminals.delete(terminalId)`.

Only the key set matters for lookup resolvability, so the state is the
list of registered ids (a `Map` holds each key at most once: `set` on a
present key replaces, `delete` removes the key entirely). -/

inductive RegEv where
  | create (id : String)
  | exit (id : String)
  | close (id : String)
  deriving DecidableEq, Repr

/-- One registry mutation.  `create` = `terminals.set` (no-op on the key set
if the key is somehow present), `exit` = the `onExit` delete, `close` =
`close_terminal` (which leaves the registry unchanged when it throws
`Terminal not found`). -/
def regStep (reg : List String) : RegEv → List String
  | RegEv.create id => if id ∈ reg then reg else id :: reg
  | RegEv.exit id => reg.filter (fun k => k ≠ id)
  | RegEv.close id => if id ∈ reg then reg.filter (fun k => k ≠ id) else reg

/-- Registry key set after running a trace of lifecycle events from the
empty initial registry. -/
def regRun (trace : List RegEv) : List String :=
  trace.foldl regStep []

/-- Lookup, `terminals.get(id)`, as used by every tool handler: lookup succeeds iff
the id is registered. -/
def lookupTerminal (reg : List String) (id : String) : Option String :=
  reg.find? (fun k => k = id)

/-! ### C6 — stop_project

index.ts lines 862-886: collect every registered session whose `name`
starts with `` `${project.name}-` ``, then kill each and
`terminals.delete(terminal.id)`. -/

structure SessionInfo where
  id : String
  name : String
  deriving DecidableEq, Repr

/-- The `stop_project` handler acting on the registry (represented as the
list of registered sessions in iteration order).  Returns the new registry
and the list of sessions that were killed. -/
def stopProject (reg : List SessionInfo) (projectName : String) :
    List SessionInfo × List SessionInfo :=
  let toClose := reg.filter (fun t => t.name.startsWith (projectName ++ "-"))
  (toClose.foldl (fun r t => r.filter (fun e => e.id ≠ t.id)) reg, toClose)

/-! ### Completion waits — executeCommand and waitForOutput

`executeCommand` (index.ts lines 204-286) issues the command and then waits
via one of two `setInterval(.., 100)` polling loops:

* pattern policy (lines 237-252), when a `pattern` option is supplied;
* stability policy (lines 255-284), the default.

`waitForOutput` (lines 289-311) is a separate polling loop.  Each is
modelled as a state machine consuming events: a `tick` is one timer
callback (carrying the chunks the pty delivered since the previous tick,
which `getNewOutput()` will see joined onto the accumulated new output —
this models `terminal.output.slice(beforeLength).join("")` for waits during
which the 1000-entry ring buffer does not wrap);
`procExit` is the pty `onExit` event.  `elapsed` stands for
`Date.now() - startTime` in milliseconds.  A JS promise settles exactly
once, recorded as `resolved : Option (settleTimeMs × value)`. -/

inductive WaitEv where
  | tick (chunks : List String)
  | procExit
  deriving DecidableEq, Repr

/-- Models `resolve(currentOutput || "Command executed (no output)")`. -/
def orNoOutput (v : String) : String :=
  if v = "" then "Command executed (no output)" else v

/-- Models `resolve(lastOutput || "Command executed (timeout - partial output)")`. -/
def orPartialOutput (v : String) : String :=
  if v = "" then "Command executed (timeout - partial output)" else v

/-- State of a stability-policy wait (lines 255-284). -/
structure StabWait where
  lastOutput : String
  stableCount : Nat
  newOutput : String
  elapsed : Nat
  timerActive : Bool
  resolved : Option (Nat × String)
  deriving DecidableEq, Repr

def initStabWait : StabWait :=
  { lastOutput := "", stableCount := 0, newOutput := "", elapsed := 0,
    timerActive := true, resolved := none }

/-- Models `resolve(v)` on a promise that may already be settled: a no-op then. -/
def settleStab (s : StabWait) (t : Nat) (v : String) : StabWait :=
  match s.resolved with
  | none => { s with resolved := some (t, v) }
  | some _ => s

/-- One event of the stability-policy wait.  On a tick with the timer still
live, the callback body runs: compare `getNewOutput()` to `lastOutput`;
on a match bump `stableCount` and, at 3, clear the interval and resolve
with the current output; otherwise reset the counter and remember the new
output; finally the callback's trailing timeout check clears the interval
and resolves with `lastOutput` once more than `timeout` ms have passed
since the command was issued.  `onExit` merely runs
`clearInterval(checkStability)`. -/
def stepStab (timeout : Nat) (s : StabWait) : WaitEv → StabWait
  | WaitEv.procExit => { s with timerActive := false }
  | WaitEv.tick chunks =>
    let out := s.newOutput ++ joinChunks chunks
    let e := s.elapsed + 100
    if s.timerActive then
      let s1 :=
        if out = s.lastOutput then
          let sc := s.stableCount + 1
          if 3 ≤ sc then
            { settleStab { s with newOutput := out, elapsed := e, stableCount := sc }
                e (orNoOutput out) with timerActive := false }
          else { s with newOutput := out, elapsed := e, stableCount := sc }
        else { s with newOutput := out, elapsed := e, stableCount := 0, lastOutput := out }
      if timeout < e then
        { settleStab s1 e (orPartialOutput s1.lastOutput) with timerActive := false }
      else s1
    else { s with newOutput := out, elapsed := e }

def runStab (timeout : Nat) (evs : List WaitEv) : StabWait :=
  evs.foldl (stepStab timeout) initStabWait

/-- State of a pattern-policy wait (lines 237-252). -/
structure PatWait where
  newOutput : String
  elapsed : Nat
  timerActive : Bool
  resolved : Option (Nat × String)
  deriving DecidableEq, Repr

def initPatWait : PatWait :=
  { newOutput := "", elapsed := 0, timerActive := true, resolved := none }

def settlePat (s : PatWait) (t : Nat) (v : String) : PatWait :=
  match s.resolved with
  | none => { s with resolved := some (t, v) }
  | some _ => s

/-- One event of the pattern-policy wait: on a live tick, resolve with the
new output as soon as `pattern.test(output)` holds or more than `timeout`
ms have elapsed since issue.  `onExit` merely runs
`clearInterval(checkInterval)`. -/
def stepPat (p : String → Bool) (timeout : Nat) (s : PatWait) : WaitEv → PatWait
  | WaitEv.procExit => { s with timerActive := false }
  | WaitEv.tick chunks =>
    let out := s.newOutput ++ joinChunks chunks
    let e := s.elapsed + 100
    if s.timerActive then
      if p out || decide (timeout < e) then
        { settlePat { s with newOutput := out, elapsed := e } e (orNoOutput out) with
            timerActive := false }
      else { s with newOutput := out, elapsed := e }
    else { s with newOutput := out, elapsed := e }

def runPat (p : String → Bool) (timeout : Nat) (evs : List WaitEv) : PatWait :=
  evs.foldl (stepPat p timeout) initPatWait

/-- State of a `waitForOutput` wait (lines 289-311).  This loop installs no
`onExit` cleanup, resolves (`Except.ok`) when the pattern matches the
output accumulated since the call, and rejects (`Except.error`) with a
timeout error once more than `timeout` ms have elapsed. -/
structure WaitForWait where
  newOutput : String
  elapsed : Nat
  timerActive : Bool
  settled : Option (Nat × Except String String)

def initWaitFor : WaitForWait :=
  { newOutput := "", elapsed := 0, timerActive := true, settled := none }

def settleWaitFor (s : WaitForWait) (t : Nat) (v : Except String String) : WaitForWait :=
  match s.settled with
  | none => { s with settled := some (t, v) }
  | some _ => s

def stepWaitFor (p : String → Bool) (timeout : Nat) (s : WaitForWait) : WaitEv → WaitForWait
  | WaitEv.procExit => s
  | WaitEv.tick chunks =>
    let out := s.newOutput ++ joinChunks chunks
    let e := s.elapsed + 100
    if s.timerActive then
      if p out then
        { settleWaitFor { s with newOutput := out, elapsed := e } e (Except.ok out) with
            timerActive := false }
      else if timeout < e then
        { settleWaitFor { s with newOutput := out, elapsed := e } e
            (Except.error "Timeout waiting for pattern") with timerActive := false }
      else { s with newOutput := out, elapsed := e }
    else { s with newOutput := out, elapsed := e }

def runWaitFor (p : String → Bool) (timeout : Nat) (evs : List WaitEv) : WaitForWait :=
  evs.foldl (stepWaitFor p timeout) initWaitFor

/-! #### C1 — process exit during an in-flight wait -/

/-- A concrete trace: one quiet tick, then the process exits, then the
timer period keeps passing well beyond the 10 s default timeout. -/
def exitTrace : List WaitEv :=
  WaitEv.tick [] :: WaitEv.procExit :: List.replicate 150 (WaitEv.tick [])

/-! #### C2 — stability-policy completion timing -/

/-- The value of `getNewOutput()` as sampled at the n-th tick, for a schedule `cs` of
per-window chunk deliveries: the join of everything the pty delivered in
the first n windows. -/
def sampleAt (cs : List (List String)) : Nat → String
  | 0 => ""
  | n + 1 => sampleAt cs n ++ joinChunks (cs.getD n [])

/-- At tick `m`, the last three consecutive samples each observed no change
from their predecessor — the earliest condition under which `stableCount`
can have reached 3. -/
def stable3At (S : Nat → String) (m : Nat) : Prop :=
  3 ≤ m ∧ ∀ i < 3, S (m - i) = S (m - i - 1)

instance (S : Nat → String) (m : Nat) : Decidable (stable3At S m) := by
  unfold stable3At
  infer_instance

/-! ### start_project orchestration (C3, C4, C5)

The `start_project` handler (index.ts lines 800-860) filters the project's
services to the requested subset, then runs the recursive closure

```
const started = new Set<string>();
const startService = async (service) => {
  if (started.has(service.name)) return;
  if (service.dependsOn) {
    for (const dep of service.dependsOn) {
      const depService = project.architecture.services.find(s => s.name === dep);
      if (depService && !started.has(dep)) await startService(depService);
    }
  }
  if (service.startCommand) {
    const terminal = createTerminal(`NAME-SVC`, servicePath);
    ... write env vars ..., write start command, started.add(service.name), delay
  }
};
for (const service of servicesToStart) await startService(service);
```

over each target.  Side effects (session creation and pty writes) are
recorded in an append-only event log; the started `Set` is the list of
names.  The recursion has no cycle detection, so it is fuelled: `none`
means the recursion did not return within the given depth — which, on a
reachable dependency cycle, it never does. -/

structure ProjectService where
  name : String
  path : String
  startCommand : Option String
  buildCommand : Option String
  testCommand : Option String
  envVars : List (String × String)
  dependsOn : List String
  deriving DecidableEq, Repr

structure ProjectSetupStep where
  name : String
  command : String
  workingDir : Option String
  allowFailure : Bool
  deriving DecidableEq, Repr

/-- The loaded project configuration (`services` stands for
`config.architecture.services`). -/
structure ProjectConfig where
  id : String
  name : String
  rootPath : String
  services : List ProjectService
  setupSteps : List ProjectSetupStep
  deriving DecidableEq, Repr

/-- Observable side effects of the orchestrator: `createSession n cwd` is a
`createTerminal(n, cwd)` call, `writeEnv` is one
`` terminal.process.write(`export KEY="VALUE"\r`) `` line, `writeStart` is
the `` terminal.process.write(`${command}\r`) `` of a start command. -/
inductive OrchEv where
  | createSession (name cwd : String)
  | writeEnv (sessionName key value : String)
  | writeStart (sessionName command : String)
  deriving DecidableEq, Repr

structure OrchState where
  started : List String
  log : List OrchEv
  deriving DecidableEq, Repr

/-- The session display name `` `${project.name}-${service.name}` ``. -/
def sessName (p : ProjectConfig) (serviceName : String) : String :=
  p.name ++ "-" ++ serviceName

/-- Models `path.join(project.rootPath, service.path)`. -/
def svcPath (p : ProjectConfig) (s : ProjectService) : String :=
  p.rootPath ++ "/" ++ s.path

/-- Models `started.add(name)` on a `Set<string>`. -/
def addStarted (n : String) (l : List String) : List String :=
  if n ∈ l then l else n :: l

/-- Models `project.architecture.services.find(s => s.name === dep)`. -/
def findService (p : ProjectConfig) (n : String) : Option ProjectService :=
  p.services.find? (fun s => s.name == n)

/-- The `for (const dep of service.dependsOn)` loop, parametrized by the
recursive `startService` call `f` (at one fuel lower). -/
def runDeps (f : OrchState → ProjectService → Option OrchState) (p : ProjectConfig) :
    OrchState → List String → Option OrchState
  | st, [] => some st
  | st, d :: ds =>
    match findService p d with
    | some depService =>
      if d ∈ st.started then runDeps f p st ds
      else
        match f st depService with
        | some st1 => runDeps f p st1 ds
        | none => none
    | none => runDeps f p st ds

/-- One `startService(service)` invocation. -/
def startService (p : ProjectConfig) : Nat → OrchState → ProjectService → Option OrchState
  | 0, _, _ => none
  | fuel + 1, st, s =>
    if s.name ∈ st.started then some st
    else
      match runDeps (fun st2 s2 => startService p fuel st2 s2) p st s.dependsOn with
      | none => none
      | some st1 =>
        match s.startCommand with
        | some cmd =>
          some { started := addStarted s.name st1.started,
                 log := st1.log
                   ++ [OrchEv.createSession (sessName p s.name) (svcPath p s)]
                   ++ s.envVars.map (fun kv => OrchEv.writeEnv (sessName p s.name) kv.1 kv.2)
                   ++ [OrchEv.writeStart (sessName p s.name) cmd] }
        | none => some st1

/-- The `for (const service of servicesToStart)` loop. -/
def startList (p : ProjectConfig) (fuel : Nat) :
    OrchState → List ProjectService → Option OrchState
  | st, [] => some st
  | st, s :: ss =>
    match startService p fuel st s with
    | some st1 => startList p fuel st1 ss
    | none => none

/-- One `start_project` invocation: filter the requested subset (all
services when `serviceNames` is absent) and start each in turn, with a
fresh invocation-scoped `started` set and an empty log. -/
def startProject (p : ProjectConfig) (serviceNames : Option (List String)) (fuel : Nat) :
    Option OrchState :=
  let servicesToStart :=
    match serviceNames with
    | some ns => p.services.filter (fun s => ns.contains s.name)
    | none => p.services
  startList p fuel { started := [], log := [] } servicesToStart

/-- Service names are unique within a project (spec §3). -/
def NodupNames (p : ProjectConfig) : Prop :=
  (p.services.map ProjectService.name).Nodup

instance (p : ProjectConfig) : Decidable (NodupNames p) := by
  unfold NodupNames
  infer_instance

/-- Every started name belongs to a project service that has a start
command whose session-creation and start-write events are already in the
log, in that order. -/
def StartedInv (p : ProjectConfig) (st : OrchState) : Prop :=
  ∀ n ∈ st.started, ∃ S, S ∈ p.services ∧ S.name = n ∧ ∃ c, S.startCommand = some c ∧
    [OrchEv.createSession (sessName p n) (svcPath p S),
     OrchEv.writeStart (sessName p n) c].Sublist st.log

/-- A session named after a service exists only for started services. -/
def SessInv (p : ProjectConfig) (st : OrchState) : Prop :=
  ∀ n cwd, OrchEv.createSession (sessName p n) cwd ∈ st.log → n ∈ st.started

/-- Dependency ordering: for every started service with a start command,
each resolving dependency that itself has a start command had its session
created and its start command written strictly before the dependent's. -/
def OrderInv (p : ProjectConfig) (st : OrchState) : Prop :=
  ∀ X, X ∈ p.services → X.name ∈ st.started → ∀ cX, X.startCommand = some cX →
    ∀ d, d ∈ X.dependsOn → ∀ D, findService p d = some D →
      ∀ cD, D.startCommand = some cD →
        [OrchEv.createSession (sessName p D.name) (svcPath p D),
         OrchEv.writeStart (sessName p D.name) cD,
         OrchEv.createSession (sessName p X.name) (svcPath p X),
         OrchEv.writeStart (sessName p X.name) cX].Sublist st.log

def OrchInv (p : ProjectConfig) (st : OrchState) : Prop :=
  StartedInv p st ∧ SessInv p st ∧ OrderInv p st

/-- Witness project for the orchestration claims: service "b" starts
command `run b` and depends on "a"; service "a" has start command `run a`
and no dependencies. -/
def witnessSvcA : ProjectService :=
  { name := "a", path := "sa", startCommand := some "run a", buildCommand := none,
    testCommand := none, envVars := [], dependsOn := [] }

def witnessSvcB : ProjectService :=
  { name := "b", path := "sb", startCommand := some "run b", buildCommand := none,
    testCommand := none, envVars := [], dependsOn := ["a"] }

def witnessProj : ProjectConfig :=
  { id := "p1", name := "proj", rootPath := "/r", services := [witnessSvcA, witnessSvcB],
    setupSteps := [] }

/-- A single service without a start command. -/
def noCmdService : ProjectService :=
  { name := "db", path := "pdb", startCommand := none, buildCommand := none,
    testCommand := none, envVars := [], dependsOn := [] }

def noCmdProject : ProjectConfig :=
  { id := "p2", name := "proj2", rootPath := "/r2", services := [noCmdService],
    setupSteps := [] }

/-- Project with one started service and one command-less service. -/
def mixedProject : ProjectConfig :=
  { id := "p3", name := "proj3", rootPath := "/r3",
    services := [witnessSvcA, noCmdService], setupSteps := [] }

/-! ### C10 — setup_project with an out-of-range stepIndex

`SetupProjectSchema` (index.ts lines 392-395) validates `projectId` as a
non-empty string and `stepIndex` only as an optional non-negative integer —
there is no upper bound.  The handler (lines 752-798) then creates and
registers the `` `${project.name}-setup` `` session FIRST; only afterwards
does it build `stepsToRun`, which for `stepIndex` out of range is
`[project.setupSteps[stepIndex]]` = `[undefined]`, and the loop's first
`` results.push(`[..] ${step.name}...`) `` reads `.name` of `undefined`
and throws a `TypeError` that aborts the handler.  Nothing removes the
already-created session. -/

/-- The zod validator of the `setup_project` arguments. -/
def setupProjectSchemaValid (projectId : String) (stepIndex : Option Int) : Bool :=
  decide (1 ≤ projectId.length) &&
    (match stepIndex with
     | none => true
     | some i => decide (0 ≤ i))

def setupSessionName (p : ProjectConfig) : String := p.name ++ "-setup"

/-- Models `path.join(project.rootPath, step.workingDir)`, or the root path. -/
def stepCwd (p : ProjectConfig) (step : ProjectSetupStep) : String :=
  match step.workingDir with
  | some wd => p.rootPath ++ "/" ++ wd
  | none => p.rootPath

/-- The step loop: each present step writes `cd "CWD" && COMMAND` into the
setup session and records completion; a missing step (`undefined` from
out-of-range indexing) throws the `TypeError` on reading `step.name`,
aborting the loop but keeping all side effects performed so far. -/
def runSetupSteps (p : ProjectConfig) :
    List OrchEv → List String → List (Option ProjectSetupStep) →
      List OrchEv × Except String (List String)
  | log, results, [] => (log, Except.ok results)
  | log, _, none :: _ =>
    (log, Except.error "TypeError: Cannot read properties of undefined (reading name)")
  | log, results, some step :: rest =>
    runSetupSteps p
      (log ++ [OrchEv.writeStart (setupSessionName p)
        ("cd \"" ++ stepCwd p step ++ "\" && " ++ step.command)])
      (results ++ [step.name ++ " completed"]) rest

/-- The `setup_project` handler body after project lookup: create the setup
session (a side effect recorded first in the log), select the steps, run
them.  Returns the side-effect log and the handler's result. -/
def setupProject (p : ProjectConfig) (stepIndex : Option Nat) :
    List OrchEv × Except String (List String) :=
  let stepsToRun : List (Option ProjectSetupStep) :=
    match stepIndex with
    | some i => [p.setupSteps.get? i]
    | none => p.setupSteps.map some
  runSetupSteps p [OrchEv.createSession (setupSessionName p) p.rootPath] [] stepsToRun

/-! ### Theorems -/

/-! ### String helpers -/

/-- Auxiliary: appending on the right is cancellative at the empty string,
mirroring the fact that a JS string grows strictly when a non-empty chunk is
appended. -/
theorem append_right_eq_self_iff (s t : String) : s ++ t = s ↔ t = "" := by
  constructor
  · intro h
    have hlen : s.length + t.length = s.length := by
      have := congrArg String.length h
      simpa [String.length_append] using this
    have : t.length = 0 := by omega
    cases t with
    | mk data =>
      cases data with
      | nil => rfl
      | cons c cs => simp [String.length, List.length] at this
  · intro h; subst h; simp

/-- Auxiliary: left-cancellation for string append (used to show session
names `projectName ++ "-" ++ serviceName` determine the service name). -/
theorem append_left_cancel {p a b : String} (h : p ++ a = p ++ b) : a = b := by
  cases p with
  | mk pd =>
    cases a with
    | mk ad =>
      cases b with
      | mk bd =>
        have hd : pd ++ ad = pd ++ bd := congrArg String.data h
        have : ad = bd := List.append_cancel_left hd
        exact congrArg String.mk this

theorem joinChunks_nil : joinChunks [] = "" := rfl

theorem foldl_append_shift (a : String) (l : List String) :
    l.foldl (fun x y => x ++ y) a = a ++ l.foldl (fun x y => x ++ y) "" := by
  induction l generalizing a with
  | nil => simp [List.foldl]
  | cons c cs ih =>
    simp only [List.foldl]
    rw [ih (a ++ c), ih ("" ++ c), String.empty_append, String.append_assoc]

theorem joinChunks_cons (c : String) (l : List String) :
    joinChunks (c :: l) = c ++ joinChunks l := by
  simp only [joinChunks, List.foldl]
  rw [foldl_append_shift ("" ++ c) l, String.empty_append]

/-- A window of chunks joins to the empty string iff every chunk is empty;
in particular, with the (always true for pty data events) assumption that
emitted chunks are non-empty, an unchanged sample means no data arrived. -/
theorem joinChunks_eq_empty_iff (l : List String) :
    joinChunks l = "" ↔ ∀ c ∈ l, c = "" := by
  induction l with
  | nil => simp [joinChunks_nil]
  | cons c cs ih =>
    rw [joinChunks_cons]
    constructor
    · intro h
      have hlen : c.length + (joinChunks cs).length = 0 := by
        have := congrArg String.length h
        simpa [String.length_append] using this
      have hc : c.length = 0 := by omega
      have hcs : (joinChunks cs).length = 0 := by omega
      have hc0 : c = "" := by
        cases c with
        | mk data =>
          cases data with
          | nil => rfl
          | cons x xs => simp [String.length, List.length] at hc
      have hcs0 : joinChunks cs = "" := by
        cases hj : joinChunks cs with
        | mk data =>
          cases data with
          | nil => rfl
          | cons x xs =>
            rw [hj] at hcs
            simp [String.length, List.length] at hcs
      intro d hd
      rw [List.mem_cons] at hd
      rcases hd with hd | hd
      · exact hd ▸ hc0
      · exact (ih.mp hcs0) d hd
    · intro h
      have hc : c = "" := h c (by simp)
      have hcs : joinChunks cs = "" := ih.mpr (fun d hd => h d (by simp [hd]))
      rw [hc, hcs]; rfl

theorem pushChunk_length_le (buf : List String) (d : String)
    (h : buf.length ≤ 1000) : (pushChunk buf d).length ≤ 1000 := by
  unfold pushChunk
  by_cases hc : 1000 < (buf ++ [d]).length
  · simp only [hc, if_true]
    have : (buf ++ [d]).length = buf.length + 1 := by simp
    cases hb : buf ++ [d] with
    | nil => simp
    | cons x xs =>
      have := congrArg List.length hb
      simp at this
      simp [List.tail]
      omega
  · simp only [hc, if_false]
    simp only [not_lt, List.length_append, List.length_singleton] at hc
    simpa using hc

theorem mem_regStep_create (reg : List String) (j id : String) :
    id ∈ regStep reg (RegEv.create j) ↔ id = j ∨ id ∈ reg := by
  unfold regStep
  by_cases h : j ∈ reg
  · simp only [h, if_true]
    constructor
    · intro hm; exact Or.inr hm
    · rintro (rfl | hm)
      · exact h
      · exact hm
  · simp only [h, if_false, List.mem_cons]

theorem mem_regStep_exit (reg : List String) (j id : String) :
    id ∈ regStep reg (RegEv.exit j) ↔ id ∈ reg ∧ id ≠ j := by
  unfold regStep
  simp [List.mem_filter]

theorem mem_regStep_close (reg : List String) (j id : String) :
    id ∈ regStep reg (RegEv.close j) ↔ id ∈ reg ∧ id ≠ j := by
  unfold regStep
  by_cases h : j ∈ reg
  · simp [h, List.mem_filter]
  · simp only [h, if_false]
    constructor
    · intro hm
      refine ⟨hm, ?_⟩
      rintro rfl
      exact h hm
    · intro hm; exact hm.1

/-- Membership characterization for an arbitrary starting registry: an id is
registered after the trace iff it was created at some point after which it
was neither closed nor exited, or it was registered before the trace and
never closed/exited during it. -/
theorem mem_regFoldl_iff (t : List RegEv) (reg : List String) (id : String) :
    id ∈ t.foldl regStep reg ↔
      (∃ t1 t2, t = t1 ++ RegEv.create id :: t2 ∧
        RegEv.close id ∉ t2 ∧ RegEv.exit id ∉ t2) ∨
      (id ∈ reg ∧ RegEv.close id ∉ t ∧ RegEv.exit id ∉ t) := by
  induction t generalizing reg with
  | nil =>
    rw [List.foldl_nil]
    constructor
    · intro h
      exact Or.inr ⟨h, by simp, by simp⟩
    · rintro (⟨t1, t2, he, _, _⟩ | ⟨h, _, _⟩)
      · have := congrArg List.length he
        simp at this
        omega
      · exact h
  | cons e t ih =>
    rw [List.foldl_cons, ih]
    constructor
    · rintro (⟨t1, t2, rfl, hc, hx⟩ | ⟨hmem, hc, hx⟩)
      · exact Or.inl ⟨e :: t1, t2, rfl, hc, hx⟩
      · cases e with
        | create j =>
          rw [mem_regStep_create] at hmem
          rcases hmem with rfl | hmem
          · exact Or.inl ⟨[], t, rfl, hc, hx⟩
          · refine Or.inr ⟨hmem, ?_, ?_⟩ <;> simp [hc, hx]
        | exit j =>
          rw [mem_regStep_exit] at hmem
          refine Or.inr ⟨hmem.1, ?_, ?_⟩
          · intro hm
            rcases List.mem_cons.mp hm with heq | hm
            · simp at heq
            · exact hc hm
          · intro hm
            rcases List.mem_cons.mp hm with heq | hm
            · injection heq with h
              exact hmem.2 h
            · exact hx hm
        | close j =>
          rw [mem_regStep_close] at hmem
          refine Or.inr ⟨hmem.1, ?_, ?_⟩
          · intro hm
            rcases List.mem_cons.mp hm with heq | hm
            · injection heq with h
              exact hmem.2 h
            · exact hc hm
          · intro hm
            rcases List.mem_cons.mp hm with heq | hm
            · simp at heq
            · exact hx hm
    · rintro (⟨t1, t2, he, hc, hx⟩ | ⟨hmem, hc, hx⟩)
      · cases t1 with
        | nil =>
          simp at he
          obtain ⟨rfl, rfl⟩ := he
          refine Or.inr ⟨?_, hc, hx⟩
          rw [mem_regStep_create]
          exact Or.inl rfl
        | cons e1 t1 =>
          simp at he
          obtain ⟨rfl, rfl⟩ := he
          exact Or.inl ⟨t1, t2, rfl, hc, hx⟩
      · have hct : RegEv.close id ∉ t := fun h => hc (by simp [h])
        have hxt : RegEv.exit id ∉ t := fun h => hx (by simp [h])
        refine Or.inr ⟨?_, hct, hxt⟩
        cases e with
        | create j =>
          rw [mem_regStep_create]; exact Or.inr hmem
        | exit j =>
          rw [mem_regStep_exit]
          refine ⟨hmem, ?_⟩
          rintro rfl
          exact hx (by simp)
        | close j =>
          rw [mem_regStep_close]
          refine ⟨hmem, ?_⟩
          rintro rfl
          exact hc (by simp)

theorem foldl_deleteIds (L : List SessionInfo) (reg : List SessionInfo) :
    L.foldl (fun r t => r.filter (fun e => e.id ≠ t.id)) reg =
      reg.filter (fun e => decide (∀ t ∈ L, e.id ≠ t.id)) := by
  induction L generalizing reg with
  | nil =>
    rw [List.foldl_nil]
    symm
    apply List.filter_eq_self.mpr
    intro e _
    exact decide_eq_true (fun t ht => absurd ht (List.not_mem_nil t))
  | cons t L ih =>
    rw [List.foldl_cons, ih, List.filter_filter]
    apply List.filter_congr
    intro e _
    show (decide (∀ u ∈ L, e.id ≠ u.id) && decide (e.id ≠ t.id))
        = decide (∀ u ∈ t :: L, e.id ≠ u.id)
    rw [← Bool.decide_and]
    apply decide_eq_decide.mpr
    rw [List.forall_mem_cons]
    exact and_comm

/-! ### Claim theorems for C6, C7, C8 -/

theorem foldl_pushChunk_le (events : List String) (buf : List String)
    (h : buf.length ≤ 1000) : (events.foldl pushChunk buf).length ≤ 1000 := by
  induction events generalizing buf with
  | nil => simpa using h
  | cons e es ih =>
    rw [List.foldl_cons]
    exact ih _ (pushChunk_length_le buf e h)

/-- Claim C8: the output-consumer callback appends the emitted chunk and
evicts the oldest chunk once the buffer holds more than 1000 entries, so
after any sequence of output events the session's ring buffer retains at
most 1000 chunks. -/
theorem outputBuffer_bounded :
    (∀ events : List String, (runOutputEvents events).length ≤ 1000) ∧
    (∀ buf d, buf.length = 1000 → pushChunk buf d = buf.tail ++ [d]) := by
  constructor
  · intro events
    exact foldl_pushChunk_le events [] (by simp)
  · intro buf d h
    unfold pushChunk
    have hlt : 1000 < (buf ++ [d]).length := by simp [h]
    simp only [hlt, if_true]
    cases buf with
    | nil => simp at h
    | cons x xs => rfl

/-- Witness for `outputBuffer_bounded` at a concrete full buffer. -/
theorem outputBuffer_bounded_witness :
    pushChunk (List.replicate 1000 "a") "b" = (List.replicate 1000 "a").tail ++ ["b"] :=
  outputBuffer_bounded.2 (List.replicate 1000 "a") "b" (by rw [List.length_replicate])

theorem split_cases {α : Type} (t1 t2 s1 s2 : List α) (e f : α)
    (h : t1 ++ e :: t2 = s1 ++ f :: s2) :
    (t1 = s1 ∧ e = f ∧ t2 = s2) ∨ e ∈ s2 ∨ f ∈ t2 := by
  induction t1 generalizing s1 with
  | nil =>
    cases s1 with
    | nil =>
      simp at h
      exact Or.inl ⟨rfl, h.1, h.2⟩
    | cons b s1 =>
      simp at h
      exact Or.inr (Or.inr (by rw [h.2]; simp))
  | cons a t1 ih =>
    cases s1 with
    | nil =>
      simp at h
      exact Or.inr (Or.inl (by rw [← h.2]; simp))
    | cons b s1 =>
      simp at h
      obtain ⟨rfl, h2⟩ := h
      rcases ih s1 h2 with ⟨rfl, he, rfl⟩ | hm | hm
      · exact Or.inl ⟨rfl, he, rfl⟩
      · exact Or.inr (Or.inl hm)
      · exact Or.inr (Or.inr hm)

theorem lookupTerminal_isSome_iff (reg : List String) (id : String) :
    (lookupTerminal reg id).isSome ↔ id ∈ reg := by
  unfold lookupTerminal
  rw [List.find?_isSome]
  constructor
  · rintro ⟨k, hk, hkid⟩
    have : k = id := of_decide_eq_true hkid
    exact this ▸ hk
  · intro h
    exact ⟨id, h, by simp⟩

/-- Claim C7: a session identifier resolves by lookup iff its process is
still live — i.e. iff the trace contains a `createTerminal` for it after
which neither `close_terminal` nor the pty `onExit` event occurred; in
particular after a create followed by a close (or an unsolicited exit) with
no later re-create, every lookup of the identifier fails. -/
theorem registry_lookup_iff_alive :
    ∀ (trace : List RegEv) (id : String),
      ((lookupTerminal (regRun trace) id).isSome ↔
        ∃ t1 t2, trace = t1 ++ RegEv.create id :: t2 ∧
          RegEv.close id ∉ t2 ∧ RegEv.exit id ∉ t2) ∧
      (∀ t1 t2, (trace = t1 ++ RegEv.close id :: t2 ∨ trace = t1 ++ RegEv.exit id :: t2) →
        RegEv.create id ∉ t2 → lookupTerminal (regRun trace) id = none) := by
  intro trace id
  have hmain : (lookupTerminal (regRun trace) id).isSome ↔
      ∃ t1 t2, trace = t1 ++ RegEv.create id :: t2 ∧
        RegEv.close id ∉ t2 ∧ RegEv.exit id ∉ t2 := by
    rw [lookupTerminal_isSome_iff]
    unfold regRun
    rw [mem_regFoldl_iff]
    constructor
    · rintro (h | ⟨h, _⟩)
      · exact h
      · simp at h
    · intro h
      exact Or.inl h
  refine ⟨hmain, ?_⟩
  intro t1 t2 hsplit hnc
  by_contra hne
  have hsome : (lookupTerminal (regRun trace) id).isSome := by
    cases ho : lookupTerminal (regRun trace) id with
    | none => exact absurd ho hne
    | some v => simp
  obtain ⟨s1, s2, hs, hcs, hxs⟩ := hmain.mp hsome
  rcases hsplit with hsplit | hsplit
  · rw [hsplit] at hs
    rcases split_cases t1 t2 s1 s2 (RegEv.close id) (RegEv.create id) hs with
      ⟨_, heq, _⟩ | hm | hm
    · simp at heq
    · exact hcs hm
    · exact hnc hm
  · rw [hsplit] at hs
    rcases split_cases t1 t2 s1 s2 (RegEv.exit id) (RegEv.create id) hs with
      ⟨_, heq, _⟩ | hm | hm
    · simp at heq
    · exact hxs hm
    · exact hnc hm

/-- Witness for `registry_lookup_iff_alive`: create then close, lookup fails. -/
theorem registry_lookup_iff_alive_witness :
    lookupTerminal (regRun [RegEv.create "a", RegEv.close "a"]) "a" = none :=
  (registry_lookup_iff_alive [RegEv.create "a", RegEv.close "a"] "a").2
    [RegEv.create "a"] [] (Or.inl rfl) (by simp)

/-- Claim C6: `stop_project` kills and deregisters exactly the sessions
whose display name starts with `projectName ++ "-"`; all other sessions are
left registered, in order, untouched. -/
theorem stopProject_exact :
    ∀ (reg : List SessionInfo) (projectName : String),
      (reg.map SessionInfo.id).Nodup →
      stopProject reg projectName =
        (reg.filter (fun t => !(t.name.startsWith (projectName ++ "-"))),
         reg.filter (fun t => t.name.startsWith (projectName ++ "-"))) := by
  intro reg projectName hnodup
  unfold stopProject
  refine Prod.ext ?_ rfl
  show (List.filter _ reg).foldl _ reg = _
  rw [foldl_deleteIds]
  apply List.filter_congr
  intro e he
  by_cases hpre : e.name.startsWith (projectName ++ "-")
  · have : ¬ (∀ t ∈ reg.filter (fun t => t.name.startsWith (projectName ++ "-")),
        e.id ≠ t.id) := by
      intro hall
      exact hall e (List.mem_filter.mpr ⟨he, hpre⟩) rfl
    simp only [decide_eq_false this, hpre]
    rfl
  · have : ∀ t ∈ reg.filter (fun t => t.name.startsWith (projectName ++ "-")),
        e.id ≠ t.id := by
      intro t ht heq
      have htr := List.mem_filter.mp ht
      have : e = t :=
        List.inj_on_of_nodup_map hnodup he htr.1 heq
      rw [← this] at htr
      exact hpre htr.2
    simp only [decide_eq_true this]
    simp [hpre]

/-! #### Basic timer/promise lemmas -/

theorem stepStab_inactive (timeout : Nat) (s : StabWait) (ev : WaitEv)
    (h : s.timerActive = false) :
    (stepStab timeout s ev).resolved = s.resolved ∧
      (stepStab timeout s ev).timerActive = false := by
  cases ev with
  | procExit => exact ⟨rfl, rfl⟩
  | tick chunks => simp [stepStab, h]

theorem stepPat_inactive (p : String → Bool) (timeout : Nat) (s : PatWait) (ev : WaitEv)
    (h : s.timerActive = false) :
    (stepPat p timeout s ev).resolved = s.resolved ∧
      (stepPat p timeout s ev).timerActive = false := by
  cases ev with
  | procExit => exact ⟨rfl, rfl⟩
  | tick chunks => simp [stepPat, h]

theorem foldl_stepStab_inactive (timeout : Nat) (evs : List WaitEv) (s : StabWait)
    (h : s.timerActive = false) :
    (evs.foldl (stepStab timeout) s).resolved = s.resolved ∧
      (evs.foldl (stepStab timeout) s).timerActive = false := by
  induction evs generalizing s with
  | nil => exact ⟨rfl, h⟩
  | cons ev evs ih =>
    rw [List.foldl_cons]
    obtain ⟨h1, h2⟩ := stepStab_inactive timeout s ev h
    obtain ⟨h3, h4⟩ := ih _ h2
    exact ⟨h3.trans h1, h4⟩

theorem foldl_stepPat_inactive (p : String → Bool) (timeout : Nat) (evs : List WaitEv)
    (s : PatWait) (h : s.timerActive = false) :
    (evs.foldl (stepPat p timeout) s).resolved = s.resolved ∧
      (evs.foldl (stepPat p timeout) s).timerActive = false := by
  induction evs generalizing s with
  | nil => exact ⟨rfl, h⟩
  | cons ev evs ih =>
    rw [List.foldl_cons]
    obtain ⟨h1, h2⟩ := stepPat_inactive p timeout s ev h
    obtain ⟨h3, h4⟩ := ih _ h2
    exact ⟨h3.trans h1, h4⟩

set_option maxRecDepth 4000 in
/-- Counterexample to claim C1 as stated: under both completion policies,
when the process exits one tick into the wait, the polling timer is indeed
released, but the promise is never resolved — here it is still pending
15 s after issue, far beyond the 10 s timeout, so the caller hangs
forever. -/
theorem exitDuringWait_hangs_counterexample :
    ((runStab 10000 exitTrace).resolved = none ∧
      (runStab 10000 exitTrace).timerActive = false ∧
      10000 < (runStab 10000 exitTrace).elapsed) ∧
    ((runPat (fun _ => false) 10000 exitTrace).resolved = none ∧
      (runPat (fun _ => false) 10000 exitTrace).timerActive = false ∧
      10000 < (runPat (fun _ => false) 10000 exitTrace).elapsed) := by
  refine ⟨⟨?_, ?_, ?_⟩, ⟨?_, ?_, ?_⟩⟩ <;> decide

/-- Claim C1 (amended): if the session's process exits while a completion
wait (either policy) is in flight and unresolved, the `onExit` handler
releases the polling timer, but the wait is never resolved afterwards: the
caller's promise stays pending forever (the collected output is never
delivered). -/
theorem exitDuringWait_releasesTimer_neverResolves :
    ∀ (timeout : Nat) (p : String → Bool) (s : StabWait) (q : PatWait)
      (evs : List WaitEv),
      s.resolved = none → q.resolved = none →
      ((evs.foldl (stepStab timeout) (stepStab timeout s WaitEv.procExit)).resolved = none ∧
        (evs.foldl (stepStab timeout) (stepStab timeout s WaitEv.procExit)).timerActive
          = false) ∧
      ((evs.foldl (stepPat p timeout) (stepPat p timeout q WaitEv.procExit)).resolved = none ∧
        (evs.foldl (stepPat p timeout) (stepPat p timeout q WaitEv.procExit)).timerActive
          = false) := by
  intro timeout p s q evs hs hq
  constructor
  · have h := foldl_stepStab_inactive timeout evs (stepStab timeout s WaitEv.procExit) rfl
    exact ⟨h.1.trans hs, h.2⟩
  · have h := foldl_stepPat_inactive p timeout evs (stepPat p timeout q WaitEv.procExit) rfl
    exact ⟨h.1.trans hq, h.2⟩

/-- Witness for `exitDuringWait_releasesTimer_neverResolves` at the initial
wait states and a concrete post-exit tick. -/
theorem exitDuringWait_releasesTimer_neverResolves_witness :
    (([WaitEv.tick ["x"]].foldl (stepStab 10000)
        (stepStab 10000 initStabWait WaitEv.procExit)).resolved = none ∧
      ([WaitEv.tick ["x"]].foldl (stepStab 10000)
        (stepStab 10000 initStabWait WaitEv.procExit)).timerActive = false) ∧
    (([WaitEv.tick ["x"]].foldl (stepPat (fun _ => true) 10000)
        (stepPat (fun _ => true) 10000 initPatWait WaitEv.procExit)).resolved = none ∧
      ([WaitEv.tick ["x"]].foldl (stepPat (fun _ => true) 10000)
        (stepPat (fun _ => true) 10000 initPatWait WaitEv.procExit)).timerActive = false) :=
  exitDuringWait_releasesTimer_neverResolves 10000 (fun _ => true) initStabWait initPatWait
    [WaitEv.tick ["x"]] rfl rfl

theorem chain_eq (S : Nat → String) (a b : Nat) (hab : a ≤ b)
    (h : ∀ j, a < j → j ≤ b → S j = S (j - 1)) : S b = S a := by
  induction b with
  | zero =>
    have : a = 0 := Nat.le_zero.mp hab
    rw [this]
  | succ n ihn =>
    by_cases hc : a = n + 1
    · rw [hc]
    · have ha : a ≤ n := by omega
      have hs : S (n + 1) = S n := by
        simpa using h (n + 1) (by omega) (le_refl _)
      rw [hs]
      exact ihn ha (fun j hj1 hj2 => h j hj1 (by omega))

theorem settleStab_none (s : StabWait) (t : Nat) (v : String) (h : s.resolved = none) :
    settleStab s t v = { s with resolved := some (t, v) } := by
  unfold settleStab
  rw [h]

/-- Evaluation of a live stability tick that observes no change and reaches
the third stable sample: the interval is cleared and the promise resolves
with the current output. -/
theorem stepStab_tick_resolve (timeout : Nat) (s : StabWait) (w : List String)
    (hact : s.timerActive = true) (hres : s.resolved = none)
    (heq : s.newOutput ++ joinChunks w = s.lastOutput)
    (hsc : s.stableCount = 2) (hto : s.elapsed + 100 ≤ timeout) :
    stepStab timeout s (WaitEv.tick w) =
      { s with
        newOutput := s.newOutput ++ joinChunks w,
        elapsed := s.elapsed + 100,
        stableCount := 3,
        timerActive := false,
        resolved := some (s.elapsed + 100, orNoOutput (s.newOutput ++ joinChunks w)) } := by
  have hnto : ¬ (timeout < s.elapsed + 100) := by omega
  simp [stepStab, settleStab, hact, heq, hsc, hres, hnto]

/-- Evaluation of a live stability tick that observes no change but has not
yet reached the third stable sample: the streak counter is bumped. -/
theorem stepStab_tick_stable (timeout : Nat) (s : StabWait) (w : List String)
    (hact : s.timerActive = true)
    (heq : s.newOutput ++ joinChunks w = s.lastOutput)
    (hsc : s.stableCount ≤ 1) (hto : s.elapsed + 100 ≤ timeout) :
    stepStab timeout s (WaitEv.tick w) =
      { s with
        newOutput := s.newOutput ++ joinChunks w,
        elapsed := s.elapsed + 100,
        stableCount := s.stableCount + 1 } := by
  have hnto : ¬ (timeout < s.elapsed + 100) := by omega
  have hn3 : ¬ (3 ≤ s.stableCount + 1) := by omega
  simp [stepStab, hact, heq, hn3, hnto]

/-- Evaluation of a live stability tick that observes a change: the streak
counter resets and the baseline `lastOutput` becomes the current output. -/
theorem stepStab_tick_change (timeout : Nat) (s : StabWait) (w : List String)
    (hact : s.timerActive = true)
    (hne : s.newOutput ++ joinChunks w ≠ s.lastOutput)
    (hto : s.elapsed + 100 ≤ timeout) :
    stepStab timeout s (WaitEv.tick w) =
      { s with
        newOutput := s.newOutput ++ joinChunks w,
        elapsed := s.elapsed + 100,
        stableCount := 0,
        lastOutput := s.newOutput ++ joinChunks w } := by
  have hnto : ¬ (timeout < s.elapsed + 100) := by omega
  simp [stepStab, hact, hne, hnto]

/-- Core run characterization for the stability policy in the
absent-timeout regime: started from a reachable mid-run state at tick `k`
whose streak bookkeeping matches the sample history `S`, the wait resolves
exactly at the first later tick at which three consecutive samples observed
no change, at elapsed time `100·r`, with the then-current output. -/
theorem stabRun_core (timeout : Nat) (S : Nat → String) :
    ∀ (ws : List (List String)) (k : Nat) (s : StabWait),
      s.timerActive = true → s.resolved = none →
      s.elapsed = 100 * k → s.newOutput = S k →
      s.stableCount ≤ 2 → s.stableCount ≤ k →
      s.lastOutput = S (k - s.stableCount) →
      (∀ j, k - s.stableCount < j → j ≤ k → S j = S (j - 1)) →
      (s.stableCount < 2 → k - s.stableCount = 0 ∨
        S (k - s.stableCount) ≠ S (k - s.stableCount - 1)) →
      (∀ i, i < ws.length → S (k + i + 1) = S (k + i) ++ joinChunks (ws.getD i [])) →
      100 * (k + ws.length) ≤ timeout →
      (∃ r, k < r ∧ r ≤ k + ws.length ∧ stable3At S r ∧
        (∀ m, k < m → m < r → ¬ stable3At S m) ∧
        ((ws.map WaitEv.tick).foldl (stepStab timeout) s).resolved
          = some (100 * r, orNoOutput (S r))) ∨
      ((∀ m, k < m → m ≤ k + ws.length → ¬ stable3At S m) ∧
        ((ws.map WaitEv.tick).foldl (stepStab timeout) s).resolved = none) := by
  intro ws
  induction ws with
  | nil =>
    intro k s hact hres helap hout hsc2 hsck hlast hstreak hmax hwin hto
    right
    refine ⟨?_, ?_⟩
    · intro m hm1 hm2
      simp only [List.length_nil, Nat.add_zero] at hm2
      exact absurd hm2 (by omega)
    · simpa using hres
  | cons w ws ih =>
    intro k s hact hres helap hout hsc2 hsck hlast hstreak hmax hwin hto
    have hwlen : (w :: ws).length = ws.length + 1 := rfl
    have hto' : 100 * (k + (ws.length + 1)) ≤ timeout := by
      rw [hwlen] at hto; exact hto
    have hS1 : S (k + 1) = S k ++ joinChunks w := by
      simpa using hwin 0 (by simp)
    have hSk : s.lastOutput = S k := by
      rw [hlast]
      exact (chain_eq S (k - s.stableCount) k (by omega) hstreak).symm
    have hout1 : s.newOutput ++ joinChunks w = S (k + 1) := by
      rw [hout, hS1]
    have he : s.elapsed + 100 = 100 * (k + 1) := by omega
    have hto1 : s.elapsed + 100 ≤ timeout := by omega
    -- the windows hypothesis for the tail
    have hwin' : ∀ i, i < ws.length →
        S (k + 1 + i + 1) = S (k + 1 + i) ++ joinChunks (ws.getD i []) := by
      intro i hi
      have h := hwin (i + 1) (by rw [hwlen]; omega)
      have e1 : k + (i + 1) + 1 = k + 1 + i + 1 := by omega
      have e2 : k + (i + 1) = k + 1 + i := by omega
      rw [e1, e2] at h
      exact h
    have htol : 100 * (k + 1 + ws.length) ≤ timeout := by omega
    rw [List.map_cons, List.foldl_cons]
    by_cases hquiet : joinChunks w = ""
    · -- this window delivered no output: the sample is unchanged
      have hS1k : S (k + 1) = S k := by
        rw [hS1, hquiet, String.append_empty]
      have heqtest : s.newOutput ++ joinChunks w = s.lastOutput := by
        rw [hout1, hSk, hS1k]
      by_cases hsc : s.stableCount = 2
      · -- third consecutive stable sample: resolves now, at r = k + 1
        have hk2 : 2 ≤ k := hsc ▸ hsck
        left
        refine ⟨k + 1, by omega, by rw [hwlen]; omega, ?_, ?_, ?_⟩
        · refine ⟨by omega, ?_⟩
          intro i hi
          interval_cases i
          · exact hS1k
          · exact hstreak k (by omega) (le_refl k)
          · exact hstreak (k - 1) (by omega) (by omega)
        · intro m hm1 hm2
          exact absurd hm1 (by omega)
        · rw [stepStab_tick_resolve timeout s w hact hres heqtest hsc hto1]
          have hfold := foldl_stepStab_inactive timeout (ws.map WaitEv.tick)
            { s with
              newOutput := s.newOutput ++ joinChunks w,
              elapsed := s.elapsed + 100,
              stableCount := 3,
              timerActive := false,
              resolved := some (s.elapsed + 100,
                orNoOutput (s.newOutput ++ joinChunks w)) } rfl
          rw [hfold.1]
          show some (s.elapsed + 100, orNoOutput (s.newOutput ++ joinChunks w)) = _
          rw [he, hout1]
      · -- stable sample but streak below 3: bump the counter and continue
        have hsc1 : s.stableCount ≤ 1 := by omega
        have hnot : ¬ stable3At S (k + 1) := by
          rintro ⟨hm3, hall⟩
          rcases Nat.lt_or_ge s.stableCount 1 with h0 | h1
          · have hsc0 : s.stableCount = 0 := by omega
            rcases hmax (by omega) with hz | hne
            · rw [hsc0] at hz
              exact absurd hm3 (by omega)
            · have h := hall 1 (by omega)
              rw [hsc0] at hne
              exact hne h
          · have hsc1' : s.stableCount = 1 := by omega
            rcases hmax (by omega) with hz | hne
            · rw [hsc1'] at hz
              exact absurd hm3 (by omega)
            · have h := hall 2 (by omega)
              rw [hsc1'] at hne
              exact hne h
        rw [stepStab_tick_stable timeout s w hact heqtest hsc1 hto1]
        have hres' := ih (k + 1)
          { s with
            newOutput := s.newOutput ++ joinChunks w,
            elapsed := s.elapsed + 100,
            stableCount := s.stableCount + 1 }
          hact hres he (by exact hout1)
          (show s.stableCount + 1 ≤ 2 by omega)
          (show s.stableCount + 1 ≤ k + 1 by omega)
          (by
            show s.lastOutput = S (k + 1 - (s.stableCount + 1))
            have e1 : k + 1 - (s.stableCount + 1) = k - s.stableCount := by omega
            rw [e1]
            exact hlast)
          (by
            show ∀ j, k + 1 - (s.stableCount + 1) < j → j ≤ k + 1 → S j = S (j - 1)
            intro j hj1 hj2
            have e1 : k + 1 - (s.stableCount + 1) = k - s.stableCount := by omega
            rw [e1] at hj1
            rcases Nat.lt_or_ge j (k + 1) with hlt | hge
            · exact hstreak j hj1 (by omega)
            · have : j = k + 1 := by omega
              rw [this]
              have e2 : k + 1 - 1 = k := by omega
              rw [e2]
              exact hS1k)
          (by
            show s.stableCount + 1 < 2 → _
            intro hlt2
            have hsc0 : s.stableCount = 0 := by omega
            have e1 : k + 1 - (s.stableCount + 1) = k - s.stableCount := by omega
            rw [e1]
            rcases hmax (by omega) with hz | hne
            · exact Or.inl hz
            · exact Or.inr hne)
          hwin' htol
        rcases hres' with ⟨r, hr1, hr2, hst, hmin, hfin⟩ | ⟨hnone, hfin⟩
        · left
          refine ⟨r, by omega, by rw [hwlen]; omega, hst, ?_, hfin⟩
          intro m hm1 hm2
          by_cases hmk : m = k + 1
          · rw [hmk]; exact hnot
          · exact hmin m (by omega) hm2
        · right
          refine ⟨?_, hfin⟩
          intro m hm1 hm2
          by_cases hmk : m = k + 1
          · rw [hmk]; exact hnot
          · exact hnone m (by omega) (by rw [hwlen] at hm2; omega)
      -- end quiet cases
    · -- this window delivered output: the sample changed, streak resets
      have hS1ne : S (k + 1) ≠ S k := by
        rw [hS1]
        intro hcontra
        exact hquiet ((append_right_eq_self_iff (S k) (joinChunks w)).mp hcontra)
      have hneq : s.newOutput ++ joinChunks w ≠ s.lastOutput := by
        rw [hout1, hSk]
        exact hS1ne
      have hnot : ¬ stable3At S (k + 1) := by
        rintro ⟨hm3, hall⟩
        have h := hall 0 (by omega)
        exact hS1ne h
      rw [stepStab_tick_change timeout s w hact hneq hto1]
      have hres' := ih (k + 1)
        { s with
          newOutput := s.newOutput ++ joinChunks w,
          elapsed := s.elapsed + 100,
          stableCount := 0,
          lastOutput := s.newOutput ++ joinChunks w }
        hact hres he (by exact hout1)
        (show (0 : Nat) ≤ 2 by omega)
        (show (0 : Nat) ≤ k + 1 by omega)
        (by exact hout1)
        (by
          show ∀ j, k + 1 - 0 < j → j ≤ k + 1 → S j = S (j - 1)
          intro j hj1 hj2
          exact absurd hj2 (by omega))
        (by
          intro _
          right
          exact hS1ne)
        hwin' htol
      rcases hres' with ⟨r, hr1, hr2, hst, hmin, hfin⟩ | ⟨hnone, hfin⟩
      · left
        refine ⟨r, by omega, by rw [hwlen]; omega, hst, ?_, hfin⟩
        intro m hm1 hm2
        by_cases hmk : m = k + 1
        · rw [hmk]; exact hnot
        · exact hmin m (by omega) hm2
      · right
        refine ⟨?_, hfin⟩
        intro m hm1 hm2
        by_cases hmk : m = k + 1
        · rw [hmk]; exact hnot
        · exact hnone m (by omega) (by rw [hwlen] at hm2; omega)

/-- Counterexample to claim C2 as stated.  First: with no output at all the
stability wait resolves at elapsed 300 ms — only 300 ms (three 100 ms
samples) of no new output, not 900 ms.  Second: resolution is not triggered
merely by "three consecutive byte-identical samples": after one chunk in
the first window, the samples at ticks 1, 2, 3 are all "a" (byte-identical),
yet the wait is still pending at tick 3, because the tick that observed the
change reset the streak counter. -/
theorem stability_300ms_counterexample :
    ((runStab 10000 ([[], [], []].map WaitEv.tick)).resolved
        = some (300, "Command executed (no output)")) ∧
    (300 : Nat) < 900 ∧
    ((runStab 10000 ([["a"], [], []].map WaitEv.tick)).resolved = none) ∧
    sampleAt [["a"], [], []] 1 = "a" ∧
    sampleAt [["a"], [], []] 2 = "a" ∧
    sampleAt [["a"], [], []] 3 = "a" := by
  refine ⟨?_, ?_, ?_, ?_, ?_, ?_⟩ <;> decide

/-- Claim C2 (amended): under the default stability policy, executeCommand
samples the new output accumulated since the command was issued once every
100 ms and, absent the wall-clock timeout, declares the command complete
exactly at the first tick at which three consecutive samples observed no
change — i.e. after 300 ms (not 900 ms) of no new output — and in
particular the three sampling windows preceding resolution are empty of
data, so it never resolves before at least 300 ms have elapsed since the
last byte was received. -/
theorem stability_first_quiet_300ms :
    ∀ (timeout : Nat) (cs : List (List String)),
      100 * cs.length ≤ timeout →
      (∀ g ∈ cs, ∀ c ∈ g, c ≠ "") →
      (∀ t v, (runStab timeout (cs.map WaitEv.tick)).resolved = some (t, v) →
        ∃ r, t = 100 * r ∧ 3 ≤ r ∧ r ≤ cs.length ∧
          v = orNoOutput (sampleAt cs r) ∧
          (∀ i < 3, cs.getD (r - i - 1) [] = []) ∧
          (∀ m < r, ¬ stable3At (sampleAt cs) m)) ∧
      (∀ r, stable3At (sampleAt cs) r → (∀ m < r, ¬ stable3At (sampleAt cs) m) →
        r ≤ cs.length →
        (runStab timeout (cs.map WaitEv.tick)).resolved
          = some (100 * r, orNoOutput (sampleAt cs r))) := by
  intro timeout cs hlen hne
  have hwin0 : ∀ i, i < cs.length →
      sampleAt cs (0 + i + 1) = sampleAt cs (0 + i) ++ joinChunks (cs.getD i []) := by
    intro i hi
    rw [Nat.zero_add]
    rfl
  have hto0 : 100 * (0 + cs.length) ≤ timeout := by omega
  have hcore := stabRun_core timeout (sampleAt cs) cs 0 initStabWait rfl rfl rfl rfl
    (by decide) (by decide) rfl
    (by
      intro j h1 h2
      exact absurd h2 (by omega))
    (by
      intro _
      exact Or.inl rfl)
    hwin0 hto0
  constructor
  · intro t v hres
    rcases hcore with ⟨r, hr1, hr2, hst, hmin, hfin⟩ | ⟨_, hfin⟩
    · have hsome : (runStab timeout (cs.map WaitEv.tick)).resolved
          = some (100 * r, orNoOutput (sampleAt cs r)) := hfin
      rw [hres] at hsome
      have hpair := Option.some.inj hsome
      have ht : t = 100 * r := congrArg Prod.fst hpair
      have hv : v = orNoOutput (sampleAt cs r) := congrArg Prod.snd hpair
      refine ⟨r, ht, hst.1, by omega, hv, ?_, ?_⟩
      · intro i hi
        have hchain := hst.2 i hi
        have hidx : r - i = (r - i - 1) + 1 := by
          have := hst.1
          omega
        have hrec : sampleAt cs (r - i)
            = sampleAt cs (r - i - 1) ++ joinChunks (cs.getD (r - i - 1) []) :=
          congrArg (sampleAt cs) hidx
        have hjoin : joinChunks (cs.getD (r - i - 1) []) = "" := by
          apply (append_right_eq_self_iff (sampleAt cs (r - i - 1)) _).mp
          rw [← hrec]
          exact hchain
        have hmem : cs.getD (r - i - 1) [] ∈ cs := by
          have hlt : r - i - 1 < cs.length := by
            have := hst.1
            omega
          rw [List.getD_eq_getElem cs [] hlt]
          exact List.getElem_mem hlt
        cases hlist : cs.getD (r - i - 1) [] with
        | nil => rfl
        | cons c rest =>
          exfalso
          rw [hlist] at hjoin
          have hcnil : c = "" :=
            (joinChunks_eq_empty_iff (c :: rest)).mp hjoin c (by simp)
          rw [hlist] at hmem
          exact hne _ hmem c (by simp) hcnil
      · intro m hm
        by_cases hm0 : m = 0
        · rintro ⟨h3, _⟩
          rw [hm0] at h3
          exact absurd h3 (by omega)
        · exact hmin m (by omega) hm
    · have hnone : (runStab timeout (cs.map WaitEv.tick)).resolved = none := hfin
      rw [hnone] at hres
      simp at hres
  · intro r hst hminr hrlen
    rcases hcore with ⟨r', hr1, hr2, hst', hmin', hfin⟩ | ⟨hnone, _⟩
    · have hrr : r = r' := by
        rcases Nat.lt_trichotomy r r' with hlt | heq | hgt
        · exact absurd hst (hmin' r (by
            have := hst.1
            omega) hlt)
        · exact heq
        · exact absurd hst' (hminr r' hgt)
      rw [hrr]
      exact hfin
    · exact absurd hst (hnone r (by
        have := hst.1
        omega) (by omega))

/-- Witness for `stability_first_quiet_300ms`: one chunk in the first
window, then silence — the command resolves exactly at tick 4, 300 ms after
the data stopped. -/
theorem stability_first_quiet_300ms_witness :
    (runStab 10000 (([["hi"], [], [], []] : List (List String)).map WaitEv.tick)).resolved
      = some (100 * 4, orNoOutput (sampleAt [["hi"], [], [], []] 4)) :=
  (stability_first_quiet_300ms 10000 [["hi"], [], [], []]
      (by decide) (by decide)).2 4 (by decide) (by decide) (by decide)

/-! #### C9 — timeout behaviors: waitForOutput rejects, executeCommand resolves -/

theorem foldl_stepWaitFor_inactive (p : String → Bool) (timeout : Nat)
    (evs : List WaitEv) (s : WaitForWait) (h : s.timerActive = false) :
    (evs.foldl (stepWaitFor p timeout) s).settled = s.settled ∧
      (evs.foldl (stepWaitFor p timeout) s).timerActive = false := by
  induction evs generalizing s with
  | nil => exact ⟨rfl, h⟩
  | cons ev evs ih =>
    rw [List.foldl_cons]
    have hstep : (stepWaitFor p timeout s ev).settled = s.settled ∧
        (stepWaitFor p timeout s ev).timerActive = false := by
      cases ev with
      | procExit => exact ⟨rfl, h⟩
      | tick chunks => simp [stepWaitFor, h]
    obtain ⟨h1, h2⟩ := hstep
    obtain ⟨h3, h4⟩ := ih _ h2
    exact ⟨h3.trans h1, h4⟩

/-- The pattern policy of executeCommand always settles (successfully): by
the first tick past the timeout at the latest, the promise has resolved. -/
theorem patRun_resolves (p : String → Bool) (timeout : Nat) :
    ∀ (cs : List (List String)) (k : Nat) (s : PatWait),
      s.timerActive = true → s.resolved = none → s.elapsed = 100 * k →
      100 * k ≤ timeout → timeout < 100 * (k + cs.length) →
      ∃ t v, ((cs.map WaitEv.tick).foldl (stepPat p timeout) s).resolved = some (t, v) := by
  intro cs
  induction cs with
  | nil =>
    intro k s _ _ _ hle hgt
    simp only [List.length_nil, Nat.add_zero] at hgt
    exact absurd hle (by omega)
  | cons w cs ihc =>
    intro k s hact hres helap hle hgt
    rw [List.map_cons, List.foldl_cons]
    cases hcond : (p (s.newOutput ++ joinChunks w) || decide (timeout < s.elapsed + 100)) with
    | true =>
      have hstep : (stepPat p timeout s (WaitEv.tick w)).resolved
          = some (s.elapsed + 100, orNoOutput (s.newOutput ++ joinChunks w)) ∧
          (stepPat p timeout s (WaitEv.tick w)).timerActive = false := by
        constructor <;> simp [stepPat, settlePat, hact, hcond, hres]
      have hfold := foldl_stepPat_inactive p timeout (cs.map WaitEv.tick) _ hstep.2
      exact ⟨_, _, hfold.1.trans hstep.1⟩
    | false =>
      have hparts := Bool.or_eq_false_iff.mp hcond
      have hnto : ¬ (timeout < s.elapsed + 100) := of_decide_eq_false hparts.2
      have hstep : stepPat p timeout s (WaitEv.tick w)
          = { s with
              newOutput := s.newOutput ++ joinChunks w,
              elapsed := s.elapsed + 100 } := by
        simp [stepPat, hact, hcond]
      rw [hstep]
      apply ihc (k + 1)
      · exact hact
      · exact hres
      · show s.elapsed + 100 = 100 * (k + 1)
        omega
      · show 100 * (k + 1) ≤ timeout
        omega
      · show timeout < 100 * (k + 1 + cs.length)
        simp only [List.length_cons] at hgt
        omega

/-- The stability policy of executeCommand always settles (successfully):
by the first tick past the timeout at the latest, the promise has resolved
— with the partial output if stability was never reached. -/
theorem stabRun_resolves (timeout : Nat) :
    ∀ (cs : List (List String)) (k : Nat) (s : StabWait),
      s.timerActive = true → s.resolved = none → s.elapsed = 100 * k →
      100 * k ≤ timeout → timeout < 100 * (k + cs.length) →
      ∃ t v, ((cs.map WaitEv.tick).foldl (stepStab timeout) s).resolved = some (t, v) := by
  intro cs
  induction cs with
  | nil =>
    intro k s _ _ _ hle hgt
    simp only [List.length_nil, Nat.add_zero] at hgt
    exact absurd hle (by omega)
  | cons w cs ihc =>
    intro k s hact hres helap hle hgt
    rw [List.map_cons, List.foldl_cons]
    have hdone : ∀ q : StabWait, (∃ t v, q.resolved = some (t, v)) → q.timerActive = false →
        ∃ t v, ((cs.map WaitEv.tick).foldl (stepStab timeout) q).resolved = some (t, v) := by
      rintro q ⟨t, v, hq⟩ hqa
      have hfold := foldl_stepStab_inactive timeout (cs.map WaitEv.tick) q hqa
      exact ⟨t, v, hfold.1.trans hq⟩
    by_cases hto : timeout < s.elapsed + 100
    · -- the trailing timeout check fires on this tick (if stability did not already)
      apply hdone
      · by_cases heq : s.newOutput ++ joinChunks w = s.lastOutput
        · by_cases h3 : 3 ≤ s.stableCount + 1
          · exact ⟨s.elapsed + 100, orNoOutput (s.newOutput ++ joinChunks w),
              by simp [stepStab, settleStab, hact, heq, h3, hres, hto]⟩
          · exact ⟨s.elapsed + 100, orPartialOutput s.lastOutput,
              by simp [stepStab, settleStab, hact, heq, h3, hres, hto]⟩
        · exact ⟨s.elapsed + 100, orPartialOutput (s.newOutput ++ joinChunks w),
            by simp [stepStab, settleStab, hact, heq, hres, hto]⟩
      · by_cases heq : s.newOutput ++ joinChunks w = s.lastOutput
        · by_cases h3 : 3 ≤ s.stableCount + 1
          · simp [stepStab, settleStab, hact, heq, h3, hres, hto]
          · simp [stepStab, settleStab, hact, heq, h3, hres, hto]
        · simp [stepStab, settleStab, hact, heq, hres, hto]
    · -- still within the timeout window
      by_cases heq : s.newOutput ++ joinChunks w = s.lastOutput
      · by_cases h3 : 3 ≤ s.stableCount + 1
        · -- stability resolves now
          apply hdone
          · exact ⟨s.elapsed + 100, orNoOutput (s.newOutput ++ joinChunks w),
              by simp [stepStab, settleStab, hact, heq, h3, hres, hto]⟩
          · simp [stepStab, settleStab, hact, heq, h3, hres, hto]
      -- otherwise the wait continues live
        · have hstep : stepStab timeout s (WaitEv.tick w)
              = { s with
                  newOutput := s.newOutput ++ joinChunks w,
                  elapsed := s.elapsed + 100,
                  stableCount := s.stableCount + 1 } := by
            simp [stepStab, hact, heq, h3, hto]
          rw [hstep]
          apply ihc (k + 1)
          · exact hact
          · exact hres
          · show s.elapsed + 100 = 100 * (k + 1)
            omega
          · show 100 * (k + 1) ≤ timeout
            omega
          · show timeout < 100 * (k + 1 + cs.length)
            simp only [List.length_cons] at hgt
            omega
      · have hstep : stepStab timeout s (WaitEv.tick w)
            = { s with
                newOutput := s.newOutput ++ joinChunks w,
                elapsed := s.elapsed + 100,
                stableCount := 0,
                lastOutput := s.newOutput ++ joinChunks w } := by
          simp [stepStab, hact, heq, hto]
        rw [hstep]
        apply ihc (k + 1)
        · exact hact
        · exact hres
        · show s.elapsed + 100 = 100 * (k + 1)
          omega
        · show 100 * (k + 1) ≤ timeout
          omega
        · show timeout < 100 * (k + 1 + cs.length)
          simp only [List.length_cons] at hgt
          omega

/-- When the pattern never matches, `waitForOutput` rejects with the
`Timeout waiting for pattern` error on the first tick past the timeout. -/
theorem waitForRun_times_out (p : String → Bool) (timeout : Nat) (S : Nat → String) :
    ∀ (cs : List (List String)) (k : Nat) (s : WaitForWait),
      s.timerActive = true → s.settled = none → s.elapsed = 100 * k →
      s.newOutput = S k →
      (∀ i, i < cs.length → S (k + i + 1) = S (k + i) ++ joinChunks (cs.getD i [])) →
      (∀ n, p (S n) = false) →
      100 * k ≤ timeout → timeout < 100 * (k + cs.length) →
      ∃ t, ((cs.map WaitEv.tick).foldl (stepWaitFor p timeout) s).settled
        = some (t, Except.error "Timeout waiting for pattern") := by
  intro cs
  induction cs with
  | nil =>
    intro k s _ _ _ _ _ _ hle hgt
    simp only [List.length_nil, Nat.add_zero] at hgt
    exact absurd hle (by omega)
  | cons w cs ihc =>
    intro k s hact hset helap hout hwin hnom hle hgt
    rw [List.map_cons, List.foldl_cons]
    have hS1 : S (k + 1) = S k ++ joinChunks w := by
      simpa using hwin 0 (by simp)
    have hout1 : s.newOutput ++ joinChunks w = S (k + 1) := by
      rw [hout, hS1]
    have hnom1 : p (s.newOutput ++ joinChunks w) = false := by
      rw [hout1]
      exact hnom (k + 1)
    by_cases hto : timeout < s.elapsed + 100
    · have hstep : (stepWaitFor p timeout s (WaitEv.tick w)).settled
          = some (s.elapsed + 100, Except.error "Timeout waiting for pattern") ∧
          (stepWaitFor p timeout s (WaitEv.tick w)).timerActive = false := by
        constructor <;> simp [stepWaitFor, settleWaitFor, hact, hnom1, hto, hset]
      have hfold := foldl_stepWaitFor_inactive p timeout (cs.map WaitEv.tick) _ hstep.2
      exact ⟨_, hfold.1.trans hstep.1⟩
    · have hstep : stepWaitFor p timeout s (WaitEv.tick w)
          = { s with
              newOutput := s.newOutput ++ joinChunks w,
              elapsed := s.elapsed + 100 } := by
        simp [stepWaitFor, hact, hnom1, hto]
      rw [hstep]
      apply ihc (k + 1)
      · exact hact
      · exact hset
      · show s.elapsed + 100 = 100 * (k + 1)
        omega
      · exact hout1
      · intro i hi
        have h := hwin (i + 1) (by simp only [List.length_cons]; omega)
        have e1 : k + (i + 1) + 1 = k + 1 + i + 1 := by omega
        have e2 : k + (i + 1) = k + 1 + i := by omega
        rw [e1, e2] at h
        exact h
      · exact hnom
      · show 100 * (k + 1) ≤ timeout
        omega
      · show timeout < 100 * (k + 1 + cs.length)
        simp only [List.length_cons] at hgt
        omega

/-- Claim C9: the two timeout behaviors are distinct — when the pattern
never matches the sampled output and the run extends past the timeout,
`waitForOutput` rejects with a `Timeout waiting for pattern` error, while
`executeCommand` under either completion policy resolves successfully
(with the partial accumulated output) rather than rejecting. -/
theorem timeout_asymmetry :
    ∀ (p : String → Bool) (timeout : Nat) (cs : List (List String)),
      (∀ n, p (sampleAt cs n) = false) →
      timeout < 100 * cs.length →
      (∃ t, (runWaitFor p timeout (cs.map WaitEv.tick)).settled
        = some (t, Except.error "Timeout waiting for pattern")) ∧
      (∃ t v, (runPat p timeout (cs.map WaitEv.tick)).resolved = some (t, v)) ∧
      (∃ t v, (runStab timeout (cs.map WaitEv.tick)).resolved = some (t, v)) := by
  intro p timeout cs hnom hgt
  have hwin0 : ∀ i, i < cs.length →
      sampleAt cs (0 + i + 1) = sampleAt cs (0 + i) ++ joinChunks (cs.getD i []) := by
    intro i hi
    rw [Nat.zero_add]
    rfl
  refine ⟨?_, ?_, ?_⟩
  · exact waitForRun_times_out p timeout (sampleAt cs) cs 0 initWaitFor rfl rfl rfl rfl
      hwin0 hnom (by omega) (by omega)
  · exact patRun_resolves p timeout cs 0 initPatWait rfl rfl rfl (by omega) (by omega)
  · exact stabRun_resolves timeout cs 0 initStabWait rfl rfl rfl (by omega) (by omega)

/-- Witness for `timeout_asymmetry`: a never-matching pattern against a
quiet session with a 1 s timeout and 1.1 s of ticks. -/
theorem timeout_asymmetry_witness :
    (∃ t, (runWaitFor (fun _ => false) 1000
        ((List.replicate 11 ([] : List String)).map WaitEv.tick)).settled
      = some (t, Except.error "Timeout waiting for pattern")) ∧
    (∃ t v, (runPat (fun _ => false) 1000
        ((List.replicate 11 ([] : List String)).map WaitEv.tick)).resolved = some (t, v)) ∧
    (∃ t v, (runStab 1000
        ((List.replicate 11 ([] : List String)).map WaitEv.tick)).resolved = some (t, v)) :=
  timeout_asymmetry (fun _ => false) 1000 (List.replicate 11 [])
    (fun _ => rfl) (by decide)

/-- Witness for `stopProject_exact` on a registry holding two "app" sessions
and one foreign session. -/
theorem stopProject_exact_witness :
    stopProject [⟨"1", "app-web"⟩, ⟨"2", "app-db"⟩, ⟨"3", "other-x"⟩] "app" =
      (([⟨"1", "app-web"⟩, ⟨"2", "app-db"⟩, ⟨"3", "other-x"⟩] :
          List SessionInfo).filter (fun t => !(t.name.startsWith ("app" ++ "-"))),
       ([⟨"1", "app-web"⟩, ⟨"2", "app-db"⟩, ⟨"3", "other-x"⟩] :
          List SessionInfo).filter (fun t => t.name.startsWith ("app" ++ "-"))) :=
  stopProject_exact _ "app" (by decide)

theorem mem_addStarted_iff (n m : String) (l : List String) :
    n ∈ addStarted m l ↔ n = m ∨ n ∈ l := by
  unfold addStarted
  by_cases h : m ∈ l
  · simp only [h, if_true]
    constructor
    · exact Or.inr
    · rintro (rfl | hm)
      · exact h
      · exact hm
  · simp only [h, if_false, List.mem_cons]

theorem sessName_inj (p : ProjectConfig) {a b : String}
    (h : sessName p a = sessName p b) : a = b :=
  append_left_cancel h

theorem findService_name (p : ProjectConfig) {d : String} {D : ProjectService}
    (h : findService p d = some D) : D.name = d := by
  have := List.find?_some h
  simpa using this

theorem findService_mem (p : ProjectConfig) {d : String} {D : ProjectService}
    (h : findService p d = some D) : D ∈ p.services :=
  List.mem_of_find?_eq_some h

theorem nodup_service_eq {p : ProjectConfig} (hnd : NodupNames p)
    {X Y : ProjectService} (hX : X ∈ p.services) (hY : Y ∈ p.services)
    (h : X.name = Y.name) : X = Y :=
  List.inj_on_of_nodup_map hnd hX hY h

/-- Soundness of the dependency loop, generic in the recursive call `f`:
the log only grows, the started set only grows, the invariant is preserved,
and afterwards every dependency in the list that resolves to a service with
a start command is started. -/
theorem runDeps_sound (p : ProjectConfig)
    (f : OrchState → ProjectService → Option OrchState)
    (hf : ∀ st s st', s ∈ p.services → OrchInv p st → f st s = some st' →
      (∃ L, st'.log = st.log ++ L) ∧ (∀ n ∈ st.started, n ∈ st'.started) ∧
        OrchInv p st' ∧ (∀ c, s.startCommand = some c → s.name ∈ st'.started)) :
    ∀ (ds : List String) (st st' : OrchState), OrchInv p st →
      runDeps f p st ds = some st' →
      (∃ L, st'.log = st.log ++ L) ∧ (∀ n ∈ st.started, n ∈ st'.started) ∧
        OrchInv p st' ∧
        (∀ d ∈ ds, ∀ D, findService p d = some D →
          ∀ c, D.startCommand = some c → D.name ∈ st'.started) := by
  intro ds
  induction ds with
  | nil =>
    intro st st' hinv h
    have heq : st = st' := Option.some.inj (by simpa [runDeps] using h)
    subst heq
    exact ⟨⟨[], by simp⟩, fun n hn => hn, hinv, by simp⟩
  | cons d ds ih =>
    intro st st' hinv h
    cases hfind : findService p d with
    | none =>
      simp only [runDeps, hfind] at h
      obtain ⟨hext, hmono, hinv', hdeps⟩ := ih st st' hinv h
      refine ⟨hext, hmono, hinv', ?_⟩
      intro e he D hD c hc
      rcases List.mem_cons.mp he with rfl | he
      · rw [hfind] at hD; cases hD
      · exact hdeps e he D hD c hc
    | some D0 =>
      simp only [runDeps, hfind] at h
      by_cases hds : d ∈ st.started
      · rw [if_pos hds] at h
        obtain ⟨hext, hmono, hinv', hdeps⟩ := ih st st' hinv h
        refine ⟨hext, hmono, hinv', ?_⟩
        intro e he D hD c hc
        rcases List.mem_cons.mp he with rfl | he
        · have hname := findService_name p hD
          rw [hname]
          exact hmono e hds
        · exact hdeps e he D hD c hc
      · rw [if_neg hds] at h
        cases hf1 : f st D0 with
        | none => rw [hf1] at h; cases h
        | some st1 =>
          rw [hf1] at h
          obtain ⟨⟨L1, hL1⟩, hmono1, hinv1, hmarks1⟩ :=
            hf st D0 st1 (findService_mem p hfind) hinv hf1
          obtain ⟨⟨L2, hL2⟩, hmono2, hinv2, hdeps2⟩ := ih st1 st' hinv1 h
          refine ⟨⟨L1 ++ L2, by rw [hL2, hL1, List.append_assoc]⟩,
            fun n hn => hmono2 n (hmono1 n hn), hinv2, ?_⟩
          intro e he D hD c hc
          rcases List.mem_cons.mp he with rfl | he
          · rw [hfind] at hD
            obtain rfl := Option.some.inj hD
            exact hmono2 _ (hmarks1 c hc)
          · exact hdeps2 e he D hD c hc

/-- Soundness of one `startService` invocation: the log and started set
only grow, the orchestration invariant is preserved, and a service with a
start command is marked started on return. -/
theorem startService_sound (p : ProjectConfig) (hnd : NodupNames p) :
    ∀ (fuel : Nat) (st : OrchState) (s : ProjectService) (st' : OrchState),
      s ∈ p.services → OrchInv p st → startService p fuel st s = some st' →
      (∃ L, st'.log = st.log ++ L) ∧ (∀ n ∈ st.started, n ∈ st'.started) ∧
        OrchInv p st' ∧ (∀ c, s.startCommand = some c → s.name ∈ st'.started) := by
  intro fuel
  induction fuel with
  | zero =>
    intro st s st' _ _ h
    simp [startService] at h
  | succ fuel ih =>
    intro st s st' hmem hinv h
    rw [startService] at h
    by_cases hstarted : s.name ∈ st.started
    · rw [if_pos hstarted] at h
      obtain rfl := Option.some.inj h
      exact ⟨⟨[], by simp⟩, fun n hn => hn, hinv, fun c _ => hstarted⟩
    · rw [if_neg hstarted] at h
      cases hdeps : runDeps (fun st2 s2 => startService p fuel st2 s2) p st s.dependsOn with
      | none => rw [hdeps] at h; cases h
      | some st1 =>
        rw [hdeps] at h
        obtain ⟨⟨L1, hL1⟩, hmono1, hinv1, hdeps1⟩ :=
          runDeps_sound p _ (fun st2 s2 st2' hm hi hfc => ih st2 s2 st2' hm hi hfc)
            s.dependsOn st st1 hinv hdeps
        cases hcmd : s.startCommand with
        | none =>
          rw [hcmd] at h
          obtain rfl := Option.some.inj h
          refine ⟨⟨L1, hL1⟩, hmono1, hinv1, ?_⟩
          intro c hc
          exact absurd hc (by simp)
        | some cmd =>
          rw [hcmd] at h
          have hst' : st' = {
              started := addStarted s.name st1.started,
              log := st1.log
                ++ [OrchEv.createSession (sessName p s.name) (svcPath p s)]
                ++ s.envVars.map (fun kv => OrchEv.writeEnv (sessName p s.name) kv.1 kv.2)
                ++ [OrchEv.writeStart (sessName p s.name) cmd] } := (Option.some.inj h).symm
          subst hst'
          have hXev : [OrchEv.createSession (sessName p s.name) (svcPath p s),
              OrchEv.writeStart (sessName p s.name) cmd].Sublist
              ([OrchEv.createSession (sessName p s.name) (svcPath p s)]
                ++ s.envVars.map (fun kv => OrchEv.writeEnv (sessName p s.name) kv.1 kv.2)
                ++ [OrchEv.writeStart (sessName p s.name) cmd]) := by
            have h1 : [OrchEv.writeStart (sessName p s.name) cmd].Sublist
                (s.envVars.map (fun kv => OrchEv.writeEnv (sessName p s.name) kv.1 kv.2)
                  ++ [OrchEv.writeStart (sessName p s.name) cmd]) :=
              List.sublist_append_right _ _
            have h2 := List.Sublist.append
              (List.Sublist.refl [OrchEv.createSession (sessName p s.name) (svcPath p s)]) h1
            simpa [List.append_assoc] using h2
          refine ⟨?_, ?_, ⟨?_, ?_, ?_⟩, ?_⟩
          · refine ⟨L1 ++ ([OrchEv.createSession (sessName p s.name) (svcPath p s)]
              ++ s.envVars.map (fun kv => OrchEv.writeEnv (sessName p s.name) kv.1 kv.2)
              ++ [OrchEv.writeStart (sessName p s.name) cmd]), ?_⟩
            show st1.log ++ _ ++ _ ++ _ = _
            rw [hL1]
            simp [List.append_assoc]
          · intro n hn
            exact (mem_addStarted_iff n s.name st1.started).mpr (Or.inr (hmono1 n hn))
          · -- StartedInv
            intro n hn
            rcases (mem_addStarted_iff n s.name st1.started).mp hn with rfl | hn1
            · refine ⟨s, hmem, rfl, cmd, hcmd, ?_⟩
              have hsub := List.Sublist.append
                (List.nil_sublist st1.log) hXev
              simpa [List.append_assoc] using hsub
            · obtain ⟨S, hS, hSname, c', hc', hsubl⟩ := hinv1.1 n hn1
              refine ⟨S, hS, hSname, c', hc', ?_⟩
              have hext : st1.log.Sublist (st1.log
                  ++ [OrchEv.createSession (sessName p s.name) (svcPath p s)]
                  ++ s.envVars.map (fun kv => OrchEv.writeEnv (sessName p s.name) kv.1 kv.2)
                  ++ [OrchEv.writeStart (sessName p s.name) cmd]) := by
                simpa [List.append_assoc] using
                  List.sublist_append_left st1.log
                    ([OrchEv.createSession (sessName p s.name) (svcPath p s)]
                      ++ s.envVars.map (fun kv =>
                          OrchEv.writeEnv (sessName p s.name) kv.1 kv.2)
                      ++ [OrchEv.writeStart (sessName p s.name) cmd])
              exact hsubl.trans hext
          · -- SessInv
            intro n cwd hmem2
            simp only [List.append_assoc, List.mem_append, List.mem_singleton,
              List.mem_map] at hmem2
            rcases hmem2 with hmem2 | hmem2 | hmem2 | hmem2
            · exact (mem_addStarted_iff n s.name st1.started).mpr
                (Or.inr (hinv1.2.1 n cwd hmem2))
            · have hinj : sessName p n = sessName p s.name := by
                injection hmem2 with h1 h2
              exact (mem_addStarted_iff n s.name st1.started).mpr
                (Or.inl (sessName_inj p hinj))
            · obtain ⟨kv, _, hkv⟩ := hmem2
              cases hkv
            · cases hmem2
          · -- OrderInv
            intro X hX hXst cX hcX d hd D hD cD hcD
            rcases (mem_addStarted_iff X.name s.name st1.started).mp hXst with hXs | hX1
            · have hXeq : X = s := nodup_service_eq hnd hX hmem hXs
              subst hXeq
              have hcXcmd : cX = cmd := by
                rw [hcmd] at hcX
                exact Option.some.inj hcX.symm
              subst hcXcmd
              have hDst : D.name ∈ st1.started := hdeps1 d hd D hD cD hcD
              obtain ⟨S', hS', hSname, c', hc', hsubD⟩ := hinv1.1 D.name hDst
              have hSD : S' = D :=
                nodup_service_eq hnd hS' (findService_mem p hD) hSname
              subst hSD
              have hccD : c' = cD := by
                rw [hcD] at hc'
                exact (Option.some.inj hc').symm
              subst hccD
              have hcomb := List.Sublist.append hsubD hXev
              simpa [List.append_assoc] using hcomb
            · have hold := hinv1.2.2 X hX hX1 cX hcX d hd D hD cD hcD
              have hext : st1.log.Sublist (st1.log
                  ++ [OrchEv.createSession (sessName p s.name) (svcPath p s)]
                  ++ s.envVars.map (fun kv => OrchEv.writeEnv (sessName p s.name) kv.1 kv.2)
                  ++ [OrchEv.writeStart (sessName p s.name) cmd]) := by
                simpa [List.append_assoc] using
                  List.sublist_append_left st1.log
                    ([OrchEv.createSession (sessName p s.name) (svcPath p s)]
                      ++ s.envVars.map (fun kv =>
                          OrchEv.writeEnv (sessName p s.name) kv.1 kv.2)
                      ++ [OrchEv.writeStart (sessName p s.name) cmd])
              exact hold.trans hext
          · intro c _
            exact (mem_addStarted_iff s.name s.name st1.started).mpr (Or.inl rfl)

/-- Soundness of the top-level service loop. -/
theorem startList_sound (p : ProjectConfig) (hnd : NodupNames p) (fuel : Nat) :
    ∀ (ss : List ProjectService) (st st' : OrchState),
      (∀ s ∈ ss, s ∈ p.services) → OrchInv p st →
      startList p fuel st ss = some st' → OrchInv p st' := by
  intro ss
  induction ss with
  | nil =>
    intro st st' _ hinv h
    have heq : st = st' := Option.some.inj (by simpa [startList] using h)
    subst heq
    exact hinv
  | cons s ss ih =>
    intro st st' hmem hinv h
    simp only [startList] at h
    cases hss : startService p fuel st s with
    | none => rw [hss] at h; cases h
    | some st1 =>
      rw [hss] at h
      obtain ⟨_, _, hinv1, _⟩ :=
        startService_sound p hnd fuel st s st1 (hmem s (by simp)) hinv hss
      exact ih st1 st' (fun u hu => hmem u (by simp [hu])) hinv1 h

/-- Claim C3: within one `start_project` invocation over a cycle-free
graph (success of the fuelled recursion — a reachable dependency cycle
never returns), every direct dependency of a started service X that
resolves to a known service (looked up in the project's FULL service list:
the theorem places no requirement that D be in the requested subset) and
has a start command had its own session created and its start command
written strictly before X's session is created and X's start command is
written. -/
theorem startProject_dependency_order :
    ∀ (p : ProjectConfig) (serviceNames : Option (List String)) (fuel : Nat)
      (st' : OrchState),
      NodupNames p →
      startProject p serviceNames fuel = some st' →
      ∀ X, X ∈ p.services → X.name ∈ st'.started →
        ∀ cX, X.startCommand = some cX →
        ∀ d, d ∈ X.dependsOn → ∀ D, findService p d = some D →
        ∀ cD, D.startCommand = some cD →
          [OrchEv.createSession (sessName p D.name) (svcPath p D),
           OrchEv.writeStart (sessName p D.name) cD,
           OrchEv.createSession (sessName p X.name) (svcPath p X),
           OrchEv.writeStart (sessName p X.name) cX].Sublist st'.log := by
  intro p serviceNames fuel st' hnd hrun
  have hinv0 : OrchInv p { started := [], log := [] } := by
    refine ⟨?_, ?_, ?_⟩
    · intro n hn
      simp at hn
    · intro n cwd hmem
      simp at hmem
    · intro X hX hXst
      simp at hXst
  have htargets : ∀ s ∈ (match serviceNames with
      | some ns => p.services.filter (fun s : ProjectService => ns.contains s.name)
      | none => p.services), s ∈ p.services := by
    cases serviceNames with
    | none => intro s hs; exact hs
    | some ns =>
      intro s hs
      exact (List.mem_filter.mp hs).1
  have hinv := startList_sound p hnd fuel _ _ st' htargets hinv0 hrun
  exact hinv.2.2

/-- Witness for `startProject_dependency_order`: starting only the subset
`["b"]` still starts the out-of-subset dependency "a" first. -/
theorem startProject_dependency_order_witness :
    [OrchEv.createSession (sessName witnessProj "a") (svcPath witnessProj witnessSvcA),
     OrchEv.writeStart (sessName witnessProj "a") "run a",
     OrchEv.createSession (sessName witnessProj "b") (svcPath witnessProj witnessSvcB),
     OrchEv.writeStart (sessName witnessProj "b") "run b"].Sublist
      (OrchState.mk ["b", "a"]
        [OrchEv.createSession "proj-a" "/r/sa",
         OrchEv.writeStart "proj-a" "run a",
         OrchEv.createSession "proj-b" "/r/sb",
         OrchEv.writeStart "proj-b" "run b"]).log :=
  startProject_dependency_order witnessProj (some ["b"]) 5
    (OrchState.mk ["b", "a"]
      [OrchEv.createSession "proj-a" "/r/sa",
       OrchEv.writeStart "proj-a" "run a",
       OrchEv.createSession "proj-b" "/r/sb",
       OrchEv.writeStart "proj-b" "run b"])
    (by decide) (by decide)
    witnessSvcB (by decide) (by decide) "run b" (by decide) "a" (by decide)
    witnessSvcA (by decide) "run a" (by decide)

/-- A service with a start command is in the started set after a successful
`startService` call on it. -/
theorem startService_marks (p : ProjectConfig) (fuel : Nat) (st : OrchState)
    (s : ProjectService) (st' : OrchState) (c : String)
    (h : startService p (fuel + 1) st s = some st') (hc : s.startCommand = some c) :
    s.name ∈ st'.started := by
  rw [startService] at h
  by_cases hstarted : s.name ∈ st.started
  · rw [if_pos hstarted] at h
    obtain rfl := Option.some.inj h
    exact hstarted
  · rw [if_neg hstarted] at h
    cases hdeps : runDeps (fun st2 s2 => startService p fuel st2 s2) p st s.dependsOn with
    | none => rw [hdeps] at h; cases h
    | some st1 =>
      rw [hdeps] at h
      rw [hc] at h
      obtain rfl := (Option.some.inj h).symm
      exact (mem_addStarted_iff s.name s.name st1.started).mpr (Or.inl rfl)

/-- Claim C4: each service is started at most once within one invocation —
if a service's name is already in the invocation-scoped started set,
`startService` returns the state unchanged (no side effects), and
consequently processing the same service twice produces exactly the state
(and in particular exactly the sessions) that processing it once does. -/
theorem startService_at_most_once :
    (∀ (p : ProjectConfig) (fuel : Nat) (st : OrchState) (s : ProjectService),
      s.name ∈ st.started → startService p (fuel + 1) st s = some st) ∧
    (∀ (p : ProjectConfig) (fuel : Nat) (st : OrchState) (s : ProjectService) (c : String),
      s.startCommand = some c →
      startList p (fuel + 1) st [s, s] = startList p (fuel + 1) st [s]) := by
  constructor
  · intro p fuel st s h
    rw [startService]
    rw [if_pos h]
  · intro p fuel st s c hc
    cases hss : startService p (fuel + 1) st s with
    | none => simp only [startList, hss]
    | some st1 =>
      have hm := startService_marks p fuel st s st1 c hss hc
      have hsecond : startService p (fuel + 1) st1 s = some st1 := by
        rw [startService]
        rw [if_pos hm]
      simp only [startList, hss, hsecond]

/-- Witness for `startService_at_most_once`: the no-op on an
already-started name, and the requested-twice run collapsing to the
requested-once run on the witness project. -/
theorem startService_at_most_once_witness :
    (startService witnessProj 3 { started := ["b"], log := [] } witnessSvcB
      = some { started := ["b"], log := [] }) ∧
    (startList witnessProj 3 { started := [], log := [] } [witnessSvcA, witnessSvcA]
      = startList witnessProj 3 { started := [], log := [] } [witnessSvcA]) :=
  ⟨startService_at_most_once.1 witnessProj 2 { started := ["b"], log := [] }
      witnessSvcB (by decide),
   startService_at_most_once.2 witnessProj 2 { started := [], log := [] }
      witnessSvcA "run a" (by decide)⟩

/-- Counterexample to claim C5 as stated: after `start_project` processes
the (command-less) service "db", the invocation's started set is EMPTY —
the service was not added to the started set, because `started.add` only
runs inside the `if (service.startCommand)` branch — and no session was
created for it. -/
theorem noCommand_notMarked_counterexample :
    startProject noCmdProject none 5 = some { started := [], log := [] } ∧
    "db" ∉ ({ started := [], log := [] } : OrchState).started := by
  constructor
  · decide
  · decide

/-- Claim C5 (amended): a processed service that defines no start command
produces no session, but it is NOT added to the started set either (the
`started.add` call sits inside the `if (service.startCommand)` branch);
its dependency role is nevertheless harmless to re-process since it has no
side effects of its own. -/
theorem noCommand_notMarked_noSession :
    ∀ (p : ProjectConfig) (serviceNames : Option (List String)) (fuel : Nat)
      (st' : OrchState),
      NodupNames p → startProject p serviceNames fuel = some st' →
      ∀ s, s ∈ p.services → s.startCommand = none →
        s.name ∉ st'.started ∧
        ∀ cwd, OrchEv.createSession (sessName p s.name) cwd ∉ st'.log := by
  intro p serviceNames fuel st' hnd hrun s hmem hnone
  have hinv0 : OrchInv p { started := [], log := [] } := by
    refine ⟨?_, ?_, ?_⟩
    · intro n hn
      simp at hn
    · intro n cwd hm
      simp at hm
    · intro X hX hXst
      simp at hXst
  have htargets : ∀ u ∈ (match serviceNames with
      | some ns => p.services.filter (fun v : ProjectService => ns.contains v.name)
      | none => p.services), u ∈ p.services := by
    cases serviceNames with
    | none => intro u hu; exact hu
    | some ns =>
      intro u hu
      exact (List.mem_filter.mp hu).1
  have hinv := startList_sound p hnd fuel _ _ st' htargets hinv0 hrun
  have hnotin : s.name ∉ st'.started := by
    intro hin
    obtain ⟨S, hS, hSname, c, hc, _⟩ := hinv.1 s.name hin
    have : S = s := nodup_service_eq hnd hS hmem hSname
    rw [this] at hc
    rw [hnone] at hc
    cases hc
  refine ⟨hnotin, ?_⟩
  intro cwd hin
  exact hnotin (hinv.2.1 s.name cwd hin)

/-- Witness for `noCommand_notMarked_noSession` on a run that starts "a"
and processes the command-less "db". -/
theorem noCommand_notMarked_noSession_witness :
    "db" ∉ (OrchState.mk ["a"]
        [OrchEv.createSession "proj3-a" "/r3/sa",
         OrchEv.writeStart "proj3-a" "run a"]).started ∧
    OrchEv.createSession (sessName mixedProject "db") (svcPath mixedProject noCmdService)
      ∉ (OrchState.mk ["a"]
        [OrchEv.createSession "proj3-a" "/r3/sa",
         OrchEv.writeStart "proj3-a" "run a"]).log :=
  have h := noCommand_notMarked_noSession mixedProject none 5
    (OrchState.mk ["a"]
      [OrchEv.createSession "proj3-a" "/r3/sa",
       OrchEv.writeStart "proj3-a" "run a"])
    (by decide) (by decide) noCmdService (by decide) (by decide)
  ⟨h.1, h.2 (svcPath mixedProject noCmdService)⟩

/-- Claim C10: for every loaded project and every `stepIndex ≥` the number
of setup steps, the schema accepts the arguments (no upper-bound
validation), and the handler throws the unguarded-access `TypeError` only
AFTER the new setup session has already been created and registered — the
returned side-effect log still contains the session creation, and the
failure rolls nothing back. -/
theorem setup_outOfRange_throws_after_session :
    ∀ (p : ProjectConfig) (i : Nat),
      p.id ≠ "" →
      p.setupSteps.length ≤ i →
      setupProjectSchemaValid p.id (some (i : Int)) = true ∧
      setupProject p (some i)
        = ([OrchEv.createSession (setupSessionName p) p.rootPath],
           Except.error "TypeError: Cannot read properties of undefined (reading name)") := by
  intro p i hid hlen
  constructor
  · have h1 : decide (1 ≤ p.id.length) = true := by
      apply decide_eq_true
      cases hid2 : p.id with
      | mk data =>
        cases data with
        | nil => exact absurd hid2 (by simpa using hid)
        | cons c cs => simp [String.length]
    have h2 : decide (0 ≤ (i : Int)) = true := decide_eq_true (Int.ofNat_nonneg i)
    show (decide (1 ≤ p.id.length) && decide (0 ≤ (i : Int))) = true
    rw [h1, h2]
    rfl
  · have hnone : p.setupSteps.get? i = none := List.get?_eq_none.mpr hlen
    show runSetupSteps p [OrchEv.createSession (setupSessionName p) p.rootPath] []
        [p.setupSteps.get? i] = _
    rw [hnone]
    rfl

/-- Witness for `setup_outOfRange_throws_after_session` at a project with
no setup steps and `stepIndex = 0`. -/
theorem setup_outOfRange_throws_after_session_witness :
    setupProjectSchemaValid witnessProj.id (some ((0 : Nat) : Int)) = true ∧
    setupProject witnessProj (some 0)
      = ([OrchEv.createSession (setupSessionName witnessProj) witnessProj.rootPath],
         Except.error "TypeError: Cannot read properties of undefined (reading name)") :=
  setup_outOfRange_throws_after_session witnessProj 0 (by decide) (by decide)

end CliMcp

